import Mathlib

/-
  A shallow embedding of `src/renderer-require.js` from electron-remote.

  The source builds a task pool on RxJS 4 primitives:

    * `freeWindowList` is a JS array used as a stack (push/pop at the end);
      here it is stored top-first, so `push` is cons and `pop` takes the head.
    * `invocationQueue.map(...).merge(maxConcurrency).subscribe(...)` is the
      dispatch pipeline.  Rx `merge(n)` subscribes at most `n` inner
      observables at a time and queues further inners in FIFO order; when an
      inner completes it subscribes the next queued inner.  Because the
      inners are wrapped in `Observable.defer`, `getOrCreateWindow` (the
      free-list pop or the spawn) runs at subscription time, i.e. at
      dispatch start.
    * An error of an inner observable that is not caught inside it
      propagates to the merged stream's observer.  The subscriber at line
      128 installs only an `onNext` handler, so an uncaught error (the
      spawn path has no `catch`) terminates the whole subscription: nothing
      is dispatched afterwards, although already-connected `multicast`
      connections to the per-invocation `AsyncSubject`s keep working.

  The embedding is an event-driven state machine: external stimuli
  (proxy calls, spawn results, remote-execution results, the reaper timer)
  are events, and `step` is the faithful translation of how the pipeline
  reacts to each of them.
-/

namespace RendererRequire

/-- Marshalled values carried as arguments and results of remote calls. -/
inductive Val
  | num (n : Int)
  | str (s : String)
deriving DecidableEq, Repr

/-- Errors that can surface through the pipeline.  The source treats every
error coming out of the remote call uniformly (`.catch(Observable.return(wnd))`);
the constructors only label the kinds the spec talks about so that claims can
be stated. -/
inductive Err
  | invocationError (msg : String)
  | fatalTransport (msg : String)
  | timeout
deriving DecidableEq, Repr

/-- Outcome of one remote execution, as reported by the transport. -/
inductive ExecOutcome
  | success (v : Val)
  | failure (e : Err)
deriving DecidableEq, Repr

/-- State of the per-invocation `AsyncSubject` (`retval`), i.e. the future
handed back to the caller via `retval.toPromise()`. -/
inductive FutureState
  | pending
  | resolved (v : Val)
  | rejected (e : Err)
deriving DecidableEq, Repr

/-- One queued invocation, the payload pushed onto `invocationQueue`
(line 144 of the source): the method chain already rewritten to start with
`requiredModule`, and the call arguments. -/
structure Invocation where
  chain : List String
  args : List Val
deriving DecidableEq, Repr

/-- The handle returned by `rendererRequireDirect`: a hidden BrowserWindow
plus the closures over it.  The model keeps the window identity and the
timeout that the `executeJavaScriptMethodObservable` closure binds
(line 53 of the source: `240*1000`). -/
structure RemoteModuleHandle where
  wndId : Nat
  execTimeoutMs : Nat
deriving DecidableEq, Repr

/-- Model of `rendererRequireDirect` (lines 27-56): creates a fresh
BrowserWindow and returns the handle whose
`executeJavaScriptMethodObservable` closure is bound to a `240*1000` ms
timeout. -/
def rendererRequireDirect (wndId : Nat) : RemoteModuleHandle :=
  { wndId := wndId, execTimeoutMs := 240 * 1000 }

/-- State of one active dispatch slot of `merge(maxConcurrency)`: the inner
observable is either still waiting for `rendererRequireDirect` to resolve,
or executing on a window. -/
inductive SlotState
  | awaitingSpawn
  | executing (hdl : RemoteModuleHandle)
deriving DecidableEq, Repr

/-- A remote execution request, issued when the flatMap body at lines
119-125 runs: `wnd.executeJavaScriptMethodObservable(chain, ...args)`. -/
structure ExecRequest where
  invId : Nat
  chain : List String
  args : List Val
  timeoutMs : Nat
deriving DecidableEq, Repr

/-- The quiet interval of the idle reaper, from line 150 of the source:
`completionQueue.guaranteedThrottle(5*1000)`. -/
def idleReapIntervalMs : Nat := 5 * 1000

/-- The whole observable state of one `RendererTaskpoolItem`.

Invocations are identified by their submission index; `futures` is indexed
the same way.  `dispatchOrder` logs invocation ids in dispatch-start order
(the order in which `merge` subscribes the deferred inners).  `alive`
records whether the merged subscription of line 128 is still active; an
uncaught error (the spawn path) sets it to false forever.  `pendingReap`
is the timestamp of the most recent completion not yet followed by a reap;
it drives the debounce of the idle reaper. -/
structure PoolState where
  modulePath : String
  maxConcurrency : Nat
  freeWindowList : List RemoteModuleHandle
  pending : List Nat
  active : List (Nat × SlotState)
  futures : List FutureState
  invocations : List Invocation
  execRequests : List ExecRequest
  nextWindowId : Nat
  alive : Bool
  disposed : List Nat
  dispatchOrder : List Nat
  pendingReap : Option Nat
deriving DecidableEq, Repr

/-- External events the pipeline reacts to: a call on the proxy, the
resolution or rejection of a `rendererRequireDirect` promise, the remote
call's observable firing, and the reaper's throttle timer elapsing. -/
inductive PoolEvent
  | submit (methodChain : List String) (args : List Val)
  | spawned (invId : Nat)
  | spawnFailed (invId : Nat) (msg : String)
  | execCompleted (invId : Nat) (outcome : ExecOutcome) (time : Nat)
  | reapTimer (time : Nat)
deriving DecidableEq, Repr

/-- Look up the slot of an invocation among the active inner subscriptions. -/
def slotOf (s : PoolState) (invId : Nat) : Option SlotState :=
  (s.active.find? (fun p => p.1 == invId)).map (fun p => p.2)

/-- The execution request built by the flatMap body: the chain and args of
the queued invocation, with the timeout bound inside the handle's
`executeJavaScriptMethodObservable` closure. -/
def mkExecRequest (s : PoolState) (invId : Nat) (hdl : RemoteModuleHandle) : ExecRequest :=
  { invId := invId,
    chain := (s.invocations.getD invId { chain := [], args := [] }).chain,
    args := (s.invocations.getD invId { chain := [], args := [] }).args,
    timeoutMs := hdl.execTimeoutMs }

/-- Dispatch start: `merge` subscribes the deferred inner observable of
`invId`.  `getOrCreateWindow` (lines 105-110) pops the free list; on a hit
the flatMap body runs synchronously (`Observable.return`), otherwise the
slot waits for the `rendererRequireDirect` promise. -/
def startDispatch (s : PoolState) (invId : Nat) : PoolState :=
  let s1 := { s with dispatchOrder := s.dispatchOrder ++ [invId] }
  match s1.freeWindowList with
  | hdl :: rest =>
      { s1 with freeWindowList := rest,
                active := s1.active ++ [(invId, SlotState.executing hdl)],
                execRequests := s1.execRequests ++ [mkExecRequest s1 invId hdl] }
  | [] =>
      { s1 with active := s1.active ++ [(invId, SlotState.awaitingSpawn)] }

/-- A call on the proxy (lines 138-146): `methodChain.splice(1)` drops the
proxy root, `['requiredModule'].concat(chain)` prepends the worker-side
binding, a fresh `AsyncSubject` is created, and the payload is pushed onto
`invocationQueue`.  If the merged subscription is still alive, `merge`
either subscribes the inner at once (a slot is free) or queues it; if the
subscription has terminated, `Subject.onNext` has no observers and the
inner is dropped. -/
def onSubmit (s : PoolState) (methodChain : List String) (args : List Val) : PoolState :=
  let inv : Invocation := { chain := "requiredModule" :: methodChain.drop 1, args := args }
  let invId := s.invocations.length
  let s1 := { s with invocations := s.invocations ++ [inv],
                     futures := s.futures ++ [FutureState.pending] }
  if s1.alive then
    if s1.active.length < s1.maxConcurrency then startDispatch s1 invId
    else { s1 with pending := s1.pending ++ [invId] }
  else s1

/-- The `rendererRequireDirect` promise of a spawning slot resolves: the
flatMap body runs on the fresh window.  If the merged subscription already
terminated, the `fromPromise` subscription was disposed and the result is
discarded. -/
def onSpawned (s : PoolState) (invId : Nat) : PoolState :=
  if s.alive then
    match slotOf s invId with
    | some SlotState.awaitingSpawn =>
        let hdl := rendererRequireDirect s.nextWindowId
        { s with nextWindowId := s.nextWindowId + 1,
                 active := s.active.map
                   (fun p => if p.1 == invId then (p.1, SlotState.executing hdl) else p),
                 execRequests := s.execRequests ++ [mkExecRequest s invId hdl] }
    | _ => s
  else s

/-- The `rendererRequireDirect` promise of a spawning slot rejects.  No
`catch` guards this path, so the error travels through `defer`/`flatMap`
into `merge` and hits the subscriber of line 128, which installs only an
`onNext` handler: the merged subscription terminates.  The failing
invocation's `AsyncSubject` was never connected (the `multicast` happens
inside the flatMap body, which never ran), so its future stays pending. -/
def onSpawnFailed (s : PoolState) (invId : Nat) (_msg : String) : PoolState :=
  if s.alive then
    match slotOf s invId with
    | some SlotState.awaitingSpawn =>
        { s with alive := false, active := s.active.filter (fun p => p.1 != invId) }
    | _ => s
  else s

/-- How the per-invocation `AsyncSubject` settles: `ret.multicast(retval)`
forwards the remote call's value or error. -/
def settleOutcome : ExecOutcome → FutureState
  | ExecOutcome.success v => FutureState.resolved v
  | ExecOutcome.failure e => FutureState.rejected e

/-- The remote call of an executing slot fires at time `t`.  The multicast
connection settles the invocation's future with the value or the error.
On the merge side, `ret.map(() => wnd).catch(Observable.return(wnd))` emits
the window in both cases; if the merged subscription is still alive the
subscriber (lines 128-132) pushes the window back onto `freeWindowList`
and signals `completionQueue`, then the completed inner frees its slot and
`merge` subscribes the next queued inner, if any.  If the subscription has
terminated, only the multicast connection is left: the future settles but
the window is not returned anywhere. -/
def onExecCompleted (s : PoolState) (invId : Nat) (outcome : ExecOutcome) (t : Nat) : PoolState :=
  match slotOf s invId with
  | some (SlotState.executing hdl) =>
      let s1 := { s with futures := s.futures.set invId (settleOutcome outcome),
                         active := s.active.filter (fun p => p.1 != invId) }
      if s1.alive then
        let s2 := { s1 with freeWindowList := hdl :: s1.freeWindowList,
                            pendingReap := some t }
        match s2.pending with
        | next :: rest => startDispatch { s2 with pending := rest } next
        | [] => s2
      else s1
  | _ => s

/-- The while loop of lines 152-155: pop every window off the free list and
dispose it; returns the ids in disposal order. -/
def reapFreeWindows : List RemoteModuleHandle → List Nat
  | [] => []
  | hdl :: rest => hdl.wndId :: reapFreeWindows rest

/-- Modelled from the spec: `guaranteedThrottle` comes from
`./custom-operators`, which is not under `src/`.  Per the spec (section 4.4,
and the idle-timer invariant of section 3), the reaper fires only after a
full quiet interval with zero completions, and any completion resets the
interval.  `pendingReap` holds the time of the latest completion not yet
followed by a reap; the timer event has an effect only when a full
`idleReapIntervalMs` has elapsed since then.  The body of the subscriber
(lines 151-155 of the source) then pops and disposes every free window. -/
def onReapTimer (s : PoolState) (t : Nat) : PoolState :=
  match s.pendingReap with
  | some t0 =>
      if t0 + idleReapIntervalMs ≤ t then
        { s with freeWindowList := [],
                 disposed := s.disposed ++ reapFreeWindows s.freeWindowList,
                 pendingReap := none }
      else s
  | none => s

/-- One reaction of the pipeline to an external event. -/
def step (s : PoolState) : PoolEvent → PoolState
  | PoolEvent.submit methodChain args => onSubmit s methodChain args
  | PoolEvent.spawned invId => onSpawned s invId
  | PoolEvent.spawnFailed invId msg => onSpawnFailed s invId msg
  | PoolEvent.execCompleted invId outcome t => onExecCompleted s invId outcome t
  | PoolEvent.reapTimer t => onReapTimer s t

/-- The state a fresh `RendererTaskpoolItem` starts in (constructor,
lines 98-157): empty free list, empty queues, live subscription. -/
def initialState (modulePath : String) (maxConcurrency : Nat) : PoolState :=
  { modulePath := modulePath
    maxConcurrency := maxConcurrency
    freeWindowList := []
    pending := []
    active := []
    futures := []
    invocations := []
    execRequests := []
    nextWindowId := 0
    alive := true
    disposed := []
    dispatchOrder := []
    pendingReap := none }

/-- Model of `requireTaskPool(modulePath, maxConcurrency=4)` (lines 88-90):
builds a fresh `RendererTaskpoolItem`; the returned proxy is the `submit`
event interface of the state machine. -/
def requireTaskPool (modulePath : String) (maxConcurrency : Nat := 4) : PoolState :=
  initialState modulePath maxConcurrency

/-- Run the pool from its initial state through a list of events. -/
def runPool (modulePath : String) (maxConcurrency : Nat) (evs : List PoolEvent) : PoolState :=
  evs.foldl step (requireTaskPool modulePath maxConcurrency)

/-- The states the pool can actually be in. -/
inductive Reachable : PoolState → Prop
  | init (modulePath : String) (maxConcurrency : Nat) :
      Reachable (requireTaskPool modulePath maxConcurrency)
  | next (s : PoolState) (e : PoolEvent) : Reachable s → Reachable (step s e)

theorem reachable_foldl (evs : List PoolEvent) :
    ∀ s : PoolState, Reachable s → Reachable (evs.foldl step s) := by
  induction evs with
  | nil => intro s hs; exact hs
  | cons e evs ih => intro s hs; exact ih (step s e) (Reachable.next s e hs)

theorem reachable_runPool (modulePath : String) (maxConcurrency : Nat)
    (evs : List PoolEvent) : Reachable (runPool modulePath maxConcurrency evs) :=
  reachable_foldl evs _ (Reachable.init modulePath maxConcurrency)

/-! ### List helpers -/

theorem getD_append_default {α : Type} (l : List α) (d : α) (i : Nat) :
    (l ++ [d]).getD i d = l.getD i d := by
  induction l generalizing i with
  | nil => cases i <;> simp [List.getD]
  | cons a l ih =>
    cases i with
    | zero => rfl
    | succ n => simpa [List.getD] using ih n

theorem getD_set_ne {α : Type} (l : List α) (i j : Nat) (v d : α) (h : j ≠ i) :
    (l.set j v).getD i d = l.getD i d := by
  induction l generalizing i j with
  | nil => simp
  | cons a l ih =>
    cases j with
    | zero =>
      cases i with
      | zero => exact absurd rfl h
      | succ n => rfl
    | succ m =>
      cases i with
      | zero => rfl
      | succ n =>
        have : m ≠ n := fun he => h (congrArg Nat.succ he)
        simpa [List.getD] using ih n m this

theorem filter_ne_eq_self (l : List (Nat × SlotState)) (i : Nat)
    (h : ∀ p ∈ l, p.1 ≠ i) : l.filter (fun p => p.1 != i) = l := by
  apply List.filter_eq_self.mpr
  intro p hp
  simpa [bne_iff_ne] using h p hp

theorem length_filter_ne_of_mem (l : List (Nat × SlotState)) (i : Nat)
    (hnd : (l.map Prod.fst).Nodup) (p : Nat × SlotState)
    (hp : p ∈ l) (hpi : p.1 = i) :
    (l.filter (fun q => q.1 != i)).length + 1 = l.length := by
  induction l with
  | nil => simp at hp
  | cons a l ih =>
    rw [List.map_cons, List.nodup_cons] at hnd
    obtain ⟨hna, hnl⟩ := hnd
    by_cases ha : a.1 = i
    · have hfilter : l.filter (fun q => q.1 != i) = l := by
        apply filter_ne_eq_self
        intro q hq hqi
        exact hna (by rw [ha, ← hqi]; exact List.mem_map_of_mem Prod.fst hq)
      have hbeq : (a.1 != i) = false := by simp [ha]
      simp [List.filter_cons, hbeq, hfilter]
    · have hpl : p ∈ l := by
        rcases List.mem_cons.mp hp with hp | hp
        · exact absurd (by rw [← hp]; exact hpi) ha
        · exact hp
      have hrec := ih hnl hpl
      have hane : (a.1 != i) = true := by simpa [bne_iff_ne] using ha
      simp only [List.filter_cons, hane, if_true, List.length_cons]
      omega

theorem nodup_keys_filter (l : List (Nat × SlotState)) (i : Nat)
    (h : (l.map Prod.fst).Nodup) :
    ((l.filter (fun p => p.1 != i)).map Prod.fst).Nodup :=
  List.Nodup.sublist (List.Sublist.map Prod.fst (List.filter_sublist l)) h

theorem map_fst_update (l : List (Nat × SlotState)) (i : Nat) (x : SlotState) :
    ((l.map (fun p => if p.1 == i then (p.1, x) else p)).map Prod.fst) =
      l.map Prod.fst := by
  induction l with
  | nil => rfl
  | cons a l ih =>
    simp only [List.map_cons]
    rw [ih]
    congr 1
    by_cases ha : (a.1 == i) = true
    · simp [ha]
    · simp [eq_false_intro ha]

theorem slotOf_none_iff (s : PoolState) (i : Nat) :
    slotOf s i = none ↔ ∀ p ∈ s.active, p.1 ≠ i := by
  simp [slotOf, List.find?_eq_none]

/-! ### The reachability invariant of the scheduler -/

/-- The inductive invariant of the dispatch pipeline.  The fields record:
the `merge(maxConcurrency)` bound on active inner subscriptions; that the
dispatch log followed by the queue is exactly the submission order
`0, 1, 2, ...`; bookkeeping between the queues and the submission log; that
the queue is nonempty only when every slot is taken; uniqueness of active
slots; and that every handle and execution request in circulation carries
the `240*1000` ms timeout bound by `rendererRequireDirect` together with
the invocation's own chain and args. -/
structure PoolInv (s : PoolState) : Prop where
  hActive : s.active.length ≤ s.maxConcurrency
  hOrder : s.dispatchOrder ++ s.pending =
    List.range (s.dispatchOrder.length + s.pending.length)
  hCount : s.alive = true →
    s.dispatchOrder.length + s.pending.length = s.invocations.length
  hCountLe : s.dispatchOrder.length + s.pending.length ≤ s.invocations.length
  hFull : s.alive = true → s.pending ≠ [] → s.active.length = s.maxConcurrency
  hNodup : (s.active.map Prod.fst).Nodup
  hActiveSub : ∀ p ∈ s.active, p.1 ∈ s.dispatchOrder
  hTimeout : ∀ r ∈ s.execRequests, r.timeoutMs = 240 * 1000
  hFreeT : ∀ hdl ∈ s.freeWindowList, hdl.execTimeoutMs = 240 * 1000
  hSlotT : ∀ p ∈ s.active, ∀ hdl, p.2 = SlotState.executing hdl →
    hdl.execTimeoutMs = 240 * 1000
  hReq : ∀ r ∈ s.execRequests, r.invId < s.invocations.length ∧
    r.chain = (s.invocations.getD r.invId { chain := [], args := [] }).chain ∧
    r.args = (s.invocations.getD r.invId { chain := [], args := [] }).args
  hSlotIds : ∀ p ∈ s.active, p.1 < s.invocations.length

theorem inv_startDispatch (s : PoolState) (invId : Nat)
    (hA : s.active.length < s.maxConcurrency)
    (hOrd : s.dispatchOrder ++ invId :: s.pending =
      List.range (s.dispatchOrder.length + s.pending.length + 1))
    (hCnt : s.alive = true →
      s.dispatchOrder.length + s.pending.length + 1 = s.invocations.length)
    (hCntLe : s.dispatchOrder.length + s.pending.length + 1 ≤ s.invocations.length)
    (hFullRes : s.pending ≠ [] → s.active.length + 1 = s.maxConcurrency)
    (hNodupS : (s.active.map Prod.fst).Nodup)
    (hFresh : invId ∉ s.active.map Prod.fst)
    (hActiveSub : ∀ p ∈ s.active, p.1 ∈ s.dispatchOrder)
    (hTimeout : ∀ r ∈ s.execRequests, r.timeoutMs = 240 * 1000)
    (hFreeT : ∀ hdl ∈ s.freeWindowList, hdl.execTimeoutMs = 240 * 1000)
    (hSlotT : ∀ p ∈ s.active, ∀ hdl, p.2 = SlotState.executing hdl →
      hdl.execTimeoutMs = 240 * 1000)
    (hReq : ∀ r ∈ s.execRequests, r.invId < s.invocations.length ∧
      r.chain = (s.invocations.getD r.invId { chain := [], args := [] }).chain ∧
      r.args = (s.invocations.getD r.invId { chain := [], args := [] }).args)
    (hSlotIds : ∀ p ∈ s.active, p.1 < s.invocations.length)
    (hInvId : invId < s.invocations.length) :
    PoolInv (startDispatch s invId) := by
  have horder : ∀ x : SlotState,
      (s.dispatchOrder ++ [invId]) ++ s.pending =
        List.range ((s.dispatchOrder ++ [invId]).length + s.pending.length) := by
    intro _
    rw [List.append_assoc, List.singleton_append, hOrd]
    congr 1
    simp only [List.length_append, List.length_cons, List.length_nil]
    omega
  have hnodup2 : ∀ x : SlotState,
      ((s.active ++ [(invId, x)]).map Prod.fst).Nodup := by
    intro x
    rw [List.map_append]
    refine List.nodup_append.mpr ⟨hNodupS, List.nodup_singleton _, ?_⟩
    intro a ha hb
    simp only [List.map_cons, List.map_nil, List.mem_singleton] at hb
    exact hFresh (hb ▸ ha)
  have hsub2 : ∀ x : SlotState, ∀ p ∈ s.active ++ [(invId, x)],
      p.1 ∈ s.dispatchOrder ++ [invId] := by
    intro x p hp
    rcases List.mem_append.mp hp with hp | hp
    · exact List.mem_append_left _ (hActiveSub p hp)
    · simp only [List.mem_singleton] at hp
      subst hp
      exact List.mem_append_right _ (by simp)
  have hids2 : ∀ x : SlotState, ∀ p ∈ s.active ++ [(invId, x)],
      p.1 < s.invocations.length := by
    intro x p hp
    rcases List.mem_append.mp hp with hp | hp
    · exact hSlotIds p hp
    · simp only [List.mem_singleton] at hp
      subst hp
      exact hInvId
  unfold startDispatch
  cases hfw : s.freeWindowList with
  | cons hdl rest =>
    have hhdl : hdl.execTimeoutMs = 240 * 1000 :=
      hFreeT hdl (by rw [hfw]; exact List.mem_cons_self _ _)
    dsimp only
    refine ⟨?_, ?_, ?_, ?_, ?_, ?_, ?_, ?_, ?_, ?_, ?_, ?_⟩
    · simp only [List.length_append, List.length_cons, List.length_nil]
      omega
    · exact horder (SlotState.executing hdl)
    · intro ha
      simp only [List.length_append, List.length_cons, List.length_nil]
      have := hCnt ha
      omega
    · simp only [List.length_append, List.length_cons, List.length_nil]
      omega
    · intro _ hne
      simp only [List.length_append, List.length_cons, List.length_nil]
      have := hFullRes hne
      omega
    · exact hnodup2 (SlotState.executing hdl)
    · exact hsub2 (SlotState.executing hdl)
    · intro r hr
      rcases List.mem_append.mp hr with hr | hr
      · exact hTimeout r hr
      · simp only [List.mem_singleton] at hr
        subst hr
        simpa [mkExecRequest] using hhdl
    · intro h hh
      exact hFreeT h (by rw [hfw]; exact List.mem_cons_of_mem _ hh)
    · intro p hp h hex
      rcases List.mem_append.mp hp with hp | hp
      · exact hSlotT p hp h hex
      · simp only [List.mem_singleton] at hp
        subst hp
        simp only at hex
        injection hex with h1
        subst h1
        exact hhdl
    · intro r hr
      rcases List.mem_append.mp hr with hr | hr
      · exact hReq r hr
      · simp only [List.mem_singleton] at hr
        subst hr
        exact ⟨hInvId, rfl, rfl⟩
    · exact hids2 (SlotState.executing hdl)
  | nil =>
    dsimp only
    refine ⟨?_, ?_, ?_, ?_, ?_, ?_, ?_, ?_, ?_, ?_, ?_, ?_⟩
    · simp only [List.length_append, List.length_cons, List.length_nil]
      omega
    · exact horder SlotState.awaitingSpawn
    · intro ha
      simp only [List.length_append, List.length_cons, List.length_nil]
      have := hCnt ha
      omega
    · simp only [List.length_append, List.length_cons, List.length_nil]
      omega
    · intro _ hne
      simp only [List.length_append, List.length_cons, List.length_nil]
      have := hFullRes hne
      omega
    · exact hnodup2 SlotState.awaitingSpawn
    · exact hsub2 SlotState.awaitingSpawn
    · exact hTimeout
    · intro h hh
      simp at hh
    · intro p hp h hex
      rcases List.mem_append.mp hp with hp | hp
      · exact hSlotT p hp h hex
      · simp only [List.mem_singleton] at hp
        subst hp
        simp at hex
    · exact hReq
    · exact hids2 SlotState.awaitingSpawn

theorem getD_invocations_append (l : List Invocation) (x : Invocation) (i : Nat)
    (h : i < l.length) :
    (l ++ [x]).getD i { chain := [], args := [] } = l.getD i { chain := [], args := [] } :=
  List.getD_append l [x] _ i h

theorem inv_onSubmit (s : PoolState) (hs : PoolInv s) (mchain : List String)
    (args : List Val) : PoolInv (onSubmit s mchain args) := by
  obtain ⟨hActive, hOrder, hCount, hCountLe, hFull, hNodup, hActiveSub,
    hTimeout, hFreeT, hSlotT, hReq, hSlotIds⟩ := hs
  have hReqApp : ∀ x : Invocation, ∀ r ∈ s.execRequests,
      r.invId < (s.invocations ++ [x]).length ∧
      r.chain = ((s.invocations ++ [x]).getD r.invId { chain := [], args := [] }).chain ∧
      r.args = ((s.invocations ++ [x]).getD r.invId { chain := [], args := [] }).args := by
    intro x r hr
    obtain ⟨h1, h2, h3⟩ := hReq r hr
    refine ⟨by simp only [List.length_append, List.length_cons, List.length_nil]; omega, ?_, ?_⟩
    · rw [getD_invocations_append _ _ _ h1]; exact h2
    · rw [getD_invocations_append _ _ _ h1]; exact h3
  unfold onSubmit
  dsimp only
  split
  case isTrue halive =>
    split
    case isTrue hlt =>
      have hpe : s.pending = [] := by
        by_contra hne
        have := hFull halive hne
        omega
      refine inv_startDispatch _ _ ?_ ?_ ?_ ?_ ?_ ?_ ?_ ?_ ?_ ?_ ?_ ?_ ?_ ?_ <;> dsimp only
      · exact hlt
      · rw [hpe]
        rw [hpe] at hOrder
        simp only [List.append_nil, List.length_nil, Nat.add_zero] at hOrder ⊢
        have hcnt := hCount halive
        rw [hpe] at hcnt
        simp only [List.length_nil, Nat.add_zero] at hcnt
        rw [List.range_succ, ← hOrder, hcnt]
      · intro _
        have hcnt := hCount halive
        simp only [List.length_append, List.length_cons, List.length_nil]
        omega
      · simp only [List.length_append, List.length_cons, List.length_nil]
        omega
      · intro hne
        exact absurd hpe hne
      · exact hNodup
      · intro hmem
        obtain ⟨p, hp, hfst⟩ := List.mem_map.mp hmem
        have := hSlotIds p hp
        omega
      · exact hActiveSub
      · exact hTimeout
      · exact hFreeT
      · exact hSlotT
      · exact hReqApp _
      · intro p hp
        have := hSlotIds p hp
        simp only [List.length_append, List.length_cons, List.length_nil]
        omega
      · simp only [List.length_append, List.length_cons, List.length_nil]
        omega
    case isFalse hlt =>
      have hcnt := hCount halive
      refine ⟨?_, ?_, ?_, ?_, ?_, ?_, ?_, ?_, ?_, ?_, ?_, ?_⟩ <;> dsimp only
      · exact hActive
      · rw [← List.append_assoc, hOrder, ← hcnt]
        rw [← List.range_succ]
        congr 1
        simp only [List.length_append, List.length_cons, List.length_nil]
        omega
      · intro _
        simp only [List.length_append, List.length_cons, List.length_nil]
        omega
      · simp only [List.length_append, List.length_cons, List.length_nil]
        omega
      · intro _ _
        omega
      · exact hNodup
      · exact hActiveSub
      · exact hTimeout
      · exact hFreeT
      · exact hSlotT
      · exact hReqApp _
      · intro p hp
        have := hSlotIds p hp
        simp only [List.length_append, List.length_cons, List.length_nil]
        omega
  case isFalse halive =>
    have halive2 : s.alive = false := by
      cases h : s.alive
      · rfl
      · exact absurd h halive
    refine ⟨?_, ?_, ?_, ?_, ?_, ?_, ?_, ?_, ?_, ?_, ?_, ?_⟩ <;> dsimp only
    · exact hActive
    · exact hOrder
    · intro h
      rw [halive2] at h
      cases h
    · simp only [List.length_append, List.length_cons, List.length_nil]
      omega
    · intro h
      rw [halive2] at h
      cases h
    · exact hNodup
    · exact hActiveSub
    · exact hTimeout
    · exact hFreeT
    · exact hSlotT
    · exact hReqApp _
    · intro p hp
      have := hSlotIds p hp
      simp only [List.length_append, List.length_cons, List.length_nil]
      omega

theorem slotOf_some (s : PoolState) (i : Nat) (x : SlotState)
    (h : slotOf s i = some x) : ∃ p ∈ s.active, p.1 = i ∧ p.2 = x := by
  unfold slotOf at h
  cases hf : s.active.find? (fun p => p.1 == i) with
  | none => rw [hf] at h; cases h
  | some p =>
    rw [hf] at h
    refine ⟨p, List.mem_of_find?_eq_some hf, ?_, ?_⟩
    · have := List.find?_some hf
      simpa [beq_iff_eq] using this
    · simpa using h

theorem inv_onSpawned (s : PoolState) (hs : PoolInv s) (invId : Nat) :
    PoolInv (onSpawned s invId) := by
  unfold onSpawned
  split
  case isFalse halive => exact hs
  case isTrue halive =>
    split
    case h_2 => exact hs
    case h_1 hslot =>
      obtain ⟨pr, hpr, hpr1, hpr2⟩ := slotOf_some _ _ _ hslot
      have hinv : invId < s.invocations.length := hpr1 ▸ hs.hSlotIds pr hpr
      refine ⟨?_, ?_, ?_, ?_, ?_, ?_, ?_, ?_, ?_, ?_, ?_, ?_⟩ <;> dsimp only
      · rw [List.length_map]; exact hs.hActive
      · exact hs.hOrder
      · exact hs.hCount
      · exact hs.hCountLe
      · rw [List.length_map]; exact hs.hFull
      · rw [map_fst_update]; exact hs.hNodup
      · intro p hp
        obtain ⟨q, hq, hfq⟩ := List.mem_map.mp hp
        have hq1 : p.1 = q.1 := by
          rw [← hfq]
          by_cases hb : (q.1 == invId) = true
          · simp [hb]
          · simp [eq_false_intro hb]
        rw [hq1]
        exact hs.hActiveSub q hq
      · intro r hr
        rcases List.mem_append.mp hr with hr | hr
        · exact hs.hTimeout r hr
        · simp only [List.mem_singleton] at hr
          subst hr
          rfl
      · exact hs.hFreeT
      · intro p hp hdl hex
        obtain ⟨q, hq, hfq⟩ := List.mem_map.mp hp
        by_cases hb : (q.1 == invId) = true
        · rw [← hfq] at hex
          simp only [hb, if_true] at hex
          injection hex with h1
          rw [← h1]
          rfl
        · rw [← hfq] at hex
          simp only [eq_false_intro hb, if_false] at hex
          exact hs.hSlotT q hq hdl hex
      · intro r hr
        rcases List.mem_append.mp hr with hr | hr
        · exact hs.hReq r hr
        · simp only [List.mem_singleton] at hr
          subst hr
          exact ⟨hinv, rfl, rfl⟩
      · intro p hp
        obtain ⟨q, hq, hfq⟩ := List.mem_map.mp hp
        have hq1 : p.1 = q.1 := by
          rw [← hfq]
          by_cases hb : (q.1 == invId) = true
          · simp [hb]
          · simp [eq_false_intro hb]
        rw [hq1]
        exact hs.hSlotIds q hq

theorem inv_onSpawnFailed (s : PoolState) (hs : PoolInv s) (invId : Nat)
    (msg : String) : PoolInv (onSpawnFailed s invId msg) := by
  unfold onSpawnFailed
  split
  case isFalse halive => exact hs
  case isTrue halive =>
    split
    case h_2 => exact hs
    case h_1 hslot =>
      refine ⟨?_, ?_, ?_, ?_, ?_, ?_, ?_, ?_, ?_, ?_, ?_, ?_⟩ <;> dsimp only
      · exact Nat.le_trans (List.length_filter_le _ _) hs.hActive
      · exact hs.hOrder
      · intro h; cases h
      · exact hs.hCountLe
      · intro h; cases h
      · exact nodup_keys_filter _ _ hs.hNodup
      · intro p hp
        exact hs.hActiveSub p (List.mem_filter.mp hp).1
      · exact hs.hTimeout
      · exact hs.hFreeT
      · intro p hp
        exact hs.hSlotT p (List.mem_filter.mp hp).1
      · exact hs.hReq
      · intro p hp
        exact hs.hSlotIds p (List.mem_filter.mp hp).1

theorem inv_onReapTimer (s : PoolState) (hs : PoolInv s) (t : Nat) :
    PoolInv (onReapTimer s t) := by
  unfold onReapTimer
  split
  case h_2 => exact hs
  case h_1 t0 hreap =>
    split
    case isFalse => exact hs
    case isTrue hquiet =>
      refine ⟨?_, ?_, ?_, ?_, ?_, ?_, ?_, ?_, ?_, ?_, ?_, ?_⟩ <;> dsimp only
      · exact hs.hActive
      · exact hs.hOrder
      · exact hs.hCount
      · exact hs.hCountLe
      · exact hs.hFull
      · exact hs.hNodup
      · exact hs.hActiveSub
      · exact hs.hTimeout
      · intro h hh
        simp at hh
      · exact hs.hSlotT
      · exact hs.hReq
      · exact hs.hSlotIds

theorem inv_onExecCompleted (s : PoolState) (hs : PoolInv s) (invId : Nat)
    (outcome : ExecOutcome) (t : Nat) :
    PoolInv (onExecCompleted s invId outcome t) := by
  unfold onExecCompleted
  split
  case h_2 => exact hs
  case h_1 hdl hslot =>
    obtain ⟨pr, hpr, hpr1, hpr2⟩ := slotOf_some _ _ _ hslot
    have hhdl : hdl.execTimeoutMs = 240 * 1000 := hs.hSlotT pr hpr hdl hpr2
    have hflen : (s.active.filter (fun p => p.1 != invId)).length + 1 =
        s.active.length :=
      length_filter_ne_of_mem _ _ hs.hNodup pr hpr hpr1
    dsimp only
    split
    case isFalse halive =>
      refine ⟨?_, ?_, ?_, ?_, ?_, ?_, ?_, ?_, ?_, ?_, ?_, ?_⟩ <;> dsimp only
      · exact Nat.le_trans (List.length_filter_le _ _) hs.hActive
      · exact hs.hOrder
      · intro h; exact absurd h halive
      · exact hs.hCountLe
      · intro h; exact absurd h halive
      · exact nodup_keys_filter _ _ hs.hNodup
      · intro p hp
        exact hs.hActiveSub p (List.mem_filter.mp hp).1
      · exact hs.hTimeout
      · exact hs.hFreeT
      · intro p hp
        exact hs.hSlotT p (List.mem_filter.mp hp).1
      · exact hs.hReq
      · intro p hp
        exact hs.hSlotIds p (List.mem_filter.mp hp).1
    case isTrue halive =>
      split
      case h_2 hp =>
        refine ⟨?_, ?_, ?_, ?_, ?_, ?_, ?_, ?_, ?_, ?_, ?_, ?_⟩ <;> dsimp only
        · exact Nat.le_trans (List.length_filter_le _ _) hs.hActive
        · exact hs.hOrder
        · exact hs.hCount
        · exact hs.hCountLe
        · intro _ hne
          exact absurd hp hne
        · exact nodup_keys_filter _ _ hs.hNodup
        · intro p hpp
          exact hs.hActiveSub p (List.mem_filter.mp hpp).1
        · exact hs.hTimeout
        · intro h hh
          rcases List.mem_cons.mp hh with hh | hh
          · rw [hh]; exact hhdl
          · exact hs.hFreeT h hh
        · intro p hpp
          exact hs.hSlotT p (List.mem_filter.mp hpp).1
        · exact hs.hReq
        · intro p hpp
          exact hs.hSlotIds p (List.mem_filter.mp hpp).1
      case h_1 next rest hp =>
        have hord := hs.hOrder
        rw [hp] at hord
        have hcntle := hs.hCountLe
        rw [hp] at hcntle
        simp only [List.length_cons] at hord hcntle
        have hnd2 : (s.dispatchOrder ++ s.pending).Nodup := by
          rw [hs.hOrder]; exact List.nodup_range _
        have hnextp : next ∈ s.pending := by
          rw [hp]; exact List.mem_cons_self _ _
        have hnextd : next ∉ s.dispatchOrder := by
          intro hx
          exact (List.disjoint_left.mp (List.nodup_append.mp hnd2).2.2) hx hnextp
        have hplen : s.pending.length = rest.length + 1 := by
          rw [hp]; rfl
        have hnextlt : next < s.invocations.length := by
          have hmem : next ∈ s.dispatchOrder ++ s.pending :=
            List.mem_append_right _ hnextp
          rw [hs.hOrder] at hmem
          have := List.mem_range.mp hmem
          omega
        have hact := hs.hActive
        refine inv_startDispatch _ _ ?_ ?_ ?_ ?_ ?_ ?_ ?_ ?_ ?_ ?_ ?_ ?_ ?_ ?_ <;>
          dsimp only
        · omega
        · rw [hord]
          exact congrArg List.range (by omega)
        · intro _
          have := hs.hCount halive
          rw [hp] at this
          simp only [List.length_cons] at this
          omega
        · omega
        · intro _
          have := hs.hFull halive (by rw [hp]; simp)
          omega
        · exact nodup_keys_filter _ _ hs.hNodup
        · intro hmem
          obtain ⟨q, hq, hfq⟩ := List.mem_map.mp hmem
          have hq2 : q ∈ s.active := (List.mem_filter.mp hq).1
          exact hnextd (hfq ▸ hs.hActiveSub q hq2)
        · intro p hpp
          exact hs.hActiveSub p (List.mem_filter.mp hpp).1
        · exact hs.hTimeout
        · intro h hh
          rcases List.mem_cons.mp hh with hh | hh
          · rw [hh]; exact hhdl
          · exact hs.hFreeT h hh
        · intro p hpp
          exact hs.hSlotT p (List.mem_filter.mp hpp).1
        · exact hs.hReq
        · intro p hpp
          exact hs.hSlotIds p (List.mem_filter.mp hpp).1
        · exact hnextlt

/-- Every reachable pool state satisfies the scheduler invariant. -/
theorem pool_inv (s : PoolState) (hs : Reachable s) : PoolInv s := by
  induction hs with
  | init mp mc =>
    refine ⟨?_, ?_, ?_, ?_, ?_, ?_, ?_, ?_, ?_, ?_, ?_, ?_⟩ <;>
      simp [requireTaskPool, initialState]
  | next s e hs ih =>
    cases e with
    | submit mchain args => exact inv_onSubmit s ih mchain args
    | spawned invId => exact inv_onSpawned s ih invId
    | spawnFailed invId msg => exact inv_onSpawnFailed s ih invId msg
    | execCompleted invId outcome t => exact inv_onExecCompleted s ih invId outcome t
    | reapTimer t => exact inv_onReapTimer s ih t

/-! ### Characterisations of single steps -/

theorem find?_filter_none (l : List (Nat × SlotState)) (i j : Nat)
    (h : l.find? (fun p => p.1 == i) = none) :
    (l.filter (fun p => p.1 != j)).find? (fun p => p.1 == i) = none := by
  rw [List.find?_eq_none] at h ⊢
  intro p hp
  exact h p (List.mem_filter.mp hp).1

/-- The remote call of an executing slot always settles the invocation's
future through the multicast connection, with the value on success and the
error on failure, whether or not the merged subscription is still alive. -/
theorem execCompleted_futures (s : PoolState) (i : Nat) (hdl : RemoteModuleHandle)
    (o : ExecOutcome) (t : Nat)
    (hSlot : slotOf s i = some (SlotState.executing hdl)) :
    (step s (PoolEvent.execCompleted i o t)).futures =
      s.futures.set i (settleOutcome o) := by
  unfold step onExecCompleted
  dsimp only
  rw [hSlot]
  dsimp only
  split
  · split
    · unfold startDispatch
      dsimp only
    · rfl
  · rfl

/-- When the remote call of an executing slot fires while the subscription
is alive and nothing is queued, the freed window is pushed back onto the
free list and the completion resets the reap debounce. -/
theorem execCompleted_free_nil (s : PoolState) (i : Nat) (hdl : RemoteModuleHandle)
    (o : ExecOutcome) (t : Nat)
    (hSlot : slotOf s i = some (SlotState.executing hdl))
    (halive : s.alive = true) (hp : s.pending = []) :
    step s (PoolEvent.execCompleted i o t) =
      { s with futures := s.futures.set i (settleOutcome o),
               active := s.active.filter (fun p => p.1 != i),
               freeWindowList := hdl :: s.freeWindowList,
               pendingReap := some t } := by
  unfold step onExecCompleted
  dsimp only
  rw [hSlot]
  dsimp only
  split
  case isTrue =>
    rw [hp]
  case isFalse h => exact absurd halive h

/-- When the remote call of an executing slot fires while the subscription
is alive and an invocation is queued, the freed window is pushed and the
next queued invocation is dispatched at once (popping the just-pushed
window first, since the free list is a stack). -/
theorem execCompleted_dispatch (s : PoolState) (i : Nat) (hdl : RemoteModuleHandle)
    (o : ExecOutcome) (t : Nat) (next : Nat) (rest : List Nat)
    (hSlot : slotOf s i = some (SlotState.executing hdl))
    (halive : s.alive = true) (hp : s.pending = next :: rest) :
    step s (PoolEvent.execCompleted i o t) =
      startDispatch
        { s with futures := s.futures.set i (settleOutcome o),
                 active := s.active.filter (fun p => p.1 != i),
                 freeWindowList := hdl :: s.freeWindowList,
                 pendingReap := some t,
                 pending := rest } next := by
  unfold step onExecCompleted
  dsimp only
  rw [hSlot]
  dsimp only
  split
  case isTrue =>
    rw [hp]
  case isFalse h => exact absurd halive h

/-- When the merged subscription has already terminated, a firing remote
call still settles the future (the multicast connection survives), but the
window is returned to no list. -/
theorem execCompleted_dead (s : PoolState) (i : Nat) (hdl : RemoteModuleHandle)
    (o : ExecOutcome) (t : Nat)
    (hSlot : slotOf s i = some (SlotState.executing hdl))
    (halive : s.alive = false) :
    step s (PoolEvent.execCompleted i o t) =
      { s with futures := s.futures.set i (settleOutcome o),
               active := s.active.filter (fun p => p.1 != i) } := by
  unfold step onExecCompleted
  dsimp only
  rw [hSlot]
  dsimp only
  split
  case isTrue h => rw [halive] at h; cases h
  case isFalse h => rfl

/-- A spawn failure of a spawning slot kills the merged subscription and
touches neither the free list nor the window counter: no window is added
anywhere, and none is removed. -/
theorem spawnFailed_eq (s : PoolState) (i : Nat) (m : String)
    (hSlot : slotOf s i = some SlotState.awaitingSpawn)
    (halive : s.alive = true) :
    step s (PoolEvent.spawnFailed i m) =
      { s with alive := false,
               active := s.active.filter (fun p => p.1 != i) } := by
  unfold step onSpawnFailed
  dsimp only
  split
  case isFalse h => exact absurd halive h
  case isTrue =>
    rw [hSlot]

/-- Once the merged subscription is dead, every later event leaves it dead,
never starts another dispatch, and never settles the future of an
invocation that holds no executing slot. -/
theorem step_dead (s : PoolState) (e : PoolEvent) (i : Nat)
    (hA : s.alive = false) (hSlot : slotOf s i = none)
    (hFut : s.futures.getD i FutureState.pending = FutureState.pending) :
    (step s e).alive = false ∧ (step s e).dispatchOrder = s.dispatchOrder ∧
    slotOf (step s e) i = none ∧
    (step s e).futures.getD i FutureState.pending = FutureState.pending := by
  cases e with
  | submit mchain args =>
    unfold step onSubmit
    dsimp only
    split
    case isTrue h => rw [hA] at h; cases h
    case isFalse h =>
      refine ⟨hA, rfl, hSlot, ?_⟩
      dsimp only
      rw [getD_append_default]
      exact hFut
  | spawned invId =>
    unfold step onSpawned
    dsimp only
    split
    case isTrue h => rw [hA] at h; cases h
    case isFalse h => exact ⟨hA, rfl, hSlot, hFut⟩
  | spawnFailed invId msg =>
    unfold step onSpawnFailed
    dsimp only
    split
    case isTrue h => rw [hA] at h; cases h
    case isFalse h => exact ⟨hA, rfl, hSlot, hFut⟩
  | execCompleted invId outcome t =>
    unfold step onExecCompleted
    dsimp only
    split
    case h_2 => exact ⟨hA, rfl, hSlot, hFut⟩
    case h_1 hdl hslot2 =>
      have hne : invId ≠ i := by
        intro he
        rw [he, hSlot] at hslot2
        cases hslot2
      split
      case isTrue h => rw [hA] at h; cases h
      case isFalse h =>
        refine ⟨hA, rfl, ?_, ?_⟩
        · unfold slotOf at hSlot ⊢
          dsimp only
          cases hf : s.active.find? (fun p => p.1 == i) with
          | none => rw [find?_filter_none _ _ _ hf]; rfl
          | some p =>
            rw [hf] at hSlot
            cases hSlot
        · dsimp only
          rw [getD_set_ne _ _ _ _ _ hne]
          exact hFut
  | reapTimer t =>
    unfold step onReapTimer
    dsimp only
    split
    case h_2 => exact ⟨hA, rfl, hSlot, hFut⟩
    case h_1 t0 hreap =>
      split
      case isTrue => exact ⟨hA, rfl, hSlot, hFut⟩
      case isFalse => exact ⟨hA, rfl, hSlot, hFut⟩

theorem dead_foldl (evs : List PoolEvent) : ∀ (s : PoolState) (i : Nat),
    s.alive = false → slotOf s i = none →
    s.futures.getD i FutureState.pending = FutureState.pending →
    (evs.foldl step s).alive = false ∧
    (evs.foldl step s).dispatchOrder = s.dispatchOrder ∧
    slotOf (evs.foldl step s) i = none ∧
    (evs.foldl step s).futures.getD i FutureState.pending = FutureState.pending := by
  induction evs with
  | nil => intro s i h1 h2 h3; exact ⟨h1, rfl, h2, h3⟩
  | cons e evs ih =>
    intro s i h1 h2 h3
    obtain ⟨g1, g2, g3, g4⟩ := step_dead s e i h1 h2 h3
    obtain ⟨k1, k2, k3, k4⟩ := ih (step s e) i g1 g3 g4
    exact ⟨k1, k2.trans g2, k3, k4⟩

theorem reapFreeWindows_map (l : List RemoteModuleHandle) :
    reapFreeWindows l = l.map RemoteModuleHandle.wndId := by
  induction l with
  | nil => rfl
  | cons hdl rest ih => simp [reapFreeWindows, ih]

/-! ### The claims -/

/-- C1: in every reachable pool state, the number of invocations occupying a
dispatch slot of `merge(maxConcurrency)` (i.e. between dispatch start and
completion) never exceeds `maxConcurrency`; submissions are accepted
without bound: every proxy call appends exactly one invocation record, and
when the pipeline is saturated the invocation is queued rather than
dropped or rejected. -/
theorem claim_c1_concurrency_bound (s : PoolState) (hs : Reachable s) :
    s.active.length ≤ s.maxConcurrency ∧
    (∀ mchain args,
      (step s (PoolEvent.submit mchain args)).invocations.length =
        s.invocations.length + 1) ∧
    (∀ mchain args, s.alive = true →
      ¬ s.active.length < s.maxConcurrency →
      (step s (PoolEvent.submit mchain args)).pending =
        s.pending ++ [s.invocations.length]) := by
  refine ⟨(pool_inv s hs).hActive, ?_, ?_⟩
  · intro mchain args
    unfold step onSubmit
    dsimp only
    split
    · split
      · unfold startDispatch
        dsimp only
        split <;> simp
      · simp
    · simp
  · intro mchain args halive hfull
    unfold step onSubmit
    dsimp only
    split
    case isFalse h => exact absurd halive h
    case isTrue => rfl

theorem claim_c1_witness :
    (runPool "mod" 2 [PoolEvent.submit ["__removeme__", "f"] [],
      PoolEvent.submit ["__removeme__", "f"] [],
      PoolEvent.submit ["__removeme__", "f"] []]).active.length ≤ 2 ∧
    (step (runPool "mod" 1 [PoolEvent.submit ["__removeme__", "f"] []])
      (PoolEvent.submit ["__removeme__", "g"] [])).pending =
      (runPool "mod" 1 [PoolEvent.submit ["__removeme__", "f"] []]).pending ++ [1] := by
  constructor
  · exact (claim_c1_concurrency_bound _ (reachable_runPool "mod" 2
      [PoolEvent.submit ["__removeme__", "f"] [],
       PoolEvent.submit ["__removeme__", "f"] [],
       PoolEvent.submit ["__removeme__", "f"] []])).1
  · exact (claim_c1_concurrency_bound
      (runPool "mod" 1 [PoolEvent.submit ["__removeme__", "f"] []])
      (reachable_runPool _ _ _)).2.2 ["__removeme__", "g"] [] rfl (by decide)

/-- C2 (counterexample): the claim says a worker-level fatal fault (broken
transport) removes the worker from circulation without returning it to the
free list and rejects the invocation with a `FatalWorkerError`.  In the
code the `catch` at line 124 returns the window to the free list on every
remote-call failure, transport faults included: after a fatal transport
error the window handle sits on the free list and the future holds the raw
transport error. -/
theorem claim_c2_counterexample :
    (runPool "mod" 1 [PoolEvent.submit ["__removeme__", "f"] [],
        PoolEvent.spawned 0,
        PoolEvent.execCompleted 0
          (ExecOutcome.failure (Err.fatalTransport "crash")) 10]).freeWindowList =
      [rendererRequireDirect 0] ∧
    (runPool "mod" 1 [PoolEvent.submit ["__removeme__", "f"] [],
        PoolEvent.spawned 0,
        PoolEvent.execCompleted 0
          (ExecOutcome.failure (Err.fatalTransport "crash")) 10]).futures =
      [FutureState.rejected (Err.fatalTransport "crash")] :=
  ⟨rfl, rfl⟩

/-- C2 (amended): for every dispatched invocation, whether the remote call
succeeds or fails — ordinary invocation error and broken-transport error
alike — the future settles with the result or the raw error and the worker
that served it is pushed back onto the free list (or handed straight to the
next queued invocation); a spawn failure adds no worker to any list and
removes none.  The code never discards a worker on an execution failure and
never produces a distinct FatalWorkerError. -/
theorem claim_c2_worker_always_returned (s : PoolState) (i : Nat)
    (hdl : RemoteModuleHandle) (o : ExecOutcome) (t : Nat)
    (hSlot : slotOf s i = some (SlotState.executing hdl)) :
    ((step s (PoolEvent.execCompleted i o t)).futures =
      s.futures.set i (settleOutcome o)) ∧
    (s.alive = true → s.pending = [] →
      (step s (PoolEvent.execCompleted i o t)).freeWindowList =
        hdl :: s.freeWindowList) ∧
    (s.alive = true → ∀ next rest, s.pending = next :: rest →
      (step s (PoolEvent.execCompleted i o t)).freeWindowList =
          s.freeWindowList ∧
      (step s (PoolEvent.execCompleted i o t)).active =
        s.active.filter (fun p => p.1 != i) ++
          [(next, SlotState.executing hdl)]) ∧
    (∀ j msg, (step s (PoolEvent.spawnFailed j msg)).freeWindowList =
        s.freeWindowList ∧
      (step s (PoolEvent.spawnFailed j msg)).nextWindowId = s.nextWindowId) := by
  refine ⟨execCompleted_futures s i hdl o t hSlot, ?_, ?_, ?_⟩
  · intro halive hp
    rw [execCompleted_free_nil s i hdl o t hSlot halive hp]
  · intro halive next rest hp
    rw [execCompleted_dispatch s i hdl o t next rest hSlot halive hp]
    unfold startDispatch
    dsimp only
    exact ⟨rfl, rfl⟩
  · intro j msg
    unfold step onSpawnFailed
    dsimp only
    split
    · split
      · exact ⟨rfl, rfl⟩
      · exact ⟨rfl, rfl⟩
    · exact ⟨rfl, rfl⟩

theorem claim_c2_witness :
    (step (runPool "mod" 1 [PoolEvent.submit ["__removeme__", "f"] [],
        PoolEvent.spawned 0])
      (PoolEvent.execCompleted 0
        (ExecOutcome.failure (Err.invocationError "boom")) 7)).freeWindowList =
      rendererRequireDirect 0 ::
        (runPool "mod" 1 [PoolEvent.submit ["__removeme__", "f"] [],
          PoolEvent.spawned 0]).freeWindowList :=
  ((claim_c2_worker_always_returned
      (runPool "mod" 1 [PoolEvent.submit ["__removeme__", "f"] [],
        PoolEvent.spawned 0])
      0 (rendererRequireDirect 0)
      (ExecOutcome.failure (Err.invocationError "boom")) 7 rfl).2.1) rfl rfl

/-- C3 (the code evaluated at the failing input): submit one invocation on
an empty pool (which starts a spawn) and let the spawn fail; then submit
another.  The spawn error travels uncaught through `defer`/`flatMap` into
`merge` and terminates the onNext-only subscription of line 128: the
triggering invocation's future stays pending forever (never rejected with
the spawn error), and no matter what events follow, the second invocation
is never dispatched — the dispatch log stays `[0]` and the pipeline stays
dead. -/
theorem claim_c3_spawn_failure_poisons_pool (evs : List PoolEvent) :
    ((evs.foldl step (runPool "mod" 1
        [PoolEvent.submit ["__removeme__", "f"] [],
         PoolEvent.spawnFailed 0 "module load error",
         PoolEvent.submit ["__removeme__", "g"] []])).futures.getD 0
      FutureState.pending = FutureState.pending) ∧
    ((evs.foldl step (runPool "mod" 1
        [PoolEvent.submit ["__removeme__", "f"] [],
         PoolEvent.spawnFailed 0 "module load error",
         PoolEvent.submit ["__removeme__", "g"] []])).futures.getD 1
      FutureState.pending = FutureState.pending) ∧
    ((evs.foldl step (runPool "mod" 1
        [PoolEvent.submit ["__removeme__", "f"] [],
         PoolEvent.spawnFailed 0 "module load error",
         PoolEvent.submit ["__removeme__", "g"] []])).dispatchOrder = [0]) ∧
    ((evs.foldl step (runPool "mod" 1
        [PoolEvent.submit ["__removeme__", "f"] [],
         PoolEvent.spawnFailed 0 "module load error",
         PoolEvent.submit ["__removeme__", "g"] []])).alive = false) := by
  obtain ⟨k1, k2, k3, k4⟩ := dead_foldl evs (runPool "mod" 1
    [PoolEvent.submit ["__removeme__", "f"] [],
     PoolEvent.spawnFailed 0 "module load error",
     PoolEvent.submit ["__removeme__", "g"] []]) 0 rfl rfl rfl
  obtain ⟨_, _, _, m4⟩ := dead_foldl evs (runPool "mod" 1
    [PoolEvent.submit ["__removeme__", "f"] [],
     PoolEvent.spawnFailed 0 "module load error",
     PoolEvent.submit ["__removeme__", "g"] []]) 1 rfl rfl rfl
  refine ⟨k4, m4, ?_, k1⟩
  rw [k2]
  rfl

/-- C4: dispatch starts follow submission order exactly: in every reachable
state the dispatch-start log is `0, 1, 2, ...` — the invocations in
submission order — whatever the interleaving of completions was. -/
theorem claim_c4_fifo_dispatch (s : PoolState) (hs : Reachable s) :
    s.dispatchOrder = List.range s.dispatchOrder.length := by
  have h := (pool_inv s hs).hOrder
  calc s.dispatchOrder
      = (s.dispatchOrder ++ s.pending).take s.dispatchOrder.length :=
        (List.take_left _ _).symm
    _ = (List.range (s.dispatchOrder.length + s.pending.length)).take
          s.dispatchOrder.length := by rw [h]
    _ = List.range (s.dispatchOrder.length ⊓
          (s.dispatchOrder.length + s.pending.length)) := List.take_range _ _
    _ = List.range s.dispatchOrder.length := by
          rw [inf_eq_left.mpr (Nat.le_add_right _ _)]

theorem claim_c4_witness :
    (runPool "mod" 1 [PoolEvent.submit ["__removeme__", "f"] [Val.num 1],
      PoolEvent.submit ["__removeme__", "f"] [Val.num 2],
      PoolEvent.submit ["__removeme__", "f"] [Val.num 3],
      PoolEvent.spawned 0,
      PoolEvent.execCompleted 0 (ExecOutcome.success (Val.num 1)) 5,
      PoolEvent.execCompleted 1 (ExecOutcome.success (Val.num 4)) 6]).dispatchOrder =
      List.range (runPool "mod" 1 [PoolEvent.submit ["__removeme__", "f"] [Val.num 1],
        PoolEvent.submit ["__removeme__", "f"] [Val.num 2],
        PoolEvent.submit ["__removeme__", "f"] [Val.num 3],
        PoolEvent.spawned 0,
        PoolEvent.execCompleted 0 (ExecOutcome.success (Val.num 1)) 5,
        PoolEvent.execCompleted 1 (ExecOutcome.success (Val.num 4)) 6]).dispatchOrder.length :=
  claim_c4_fifo_dispatch _ (reachable_runPool _ _ _)

/-- C5: `getOrCreateWindow` pops the free list: a dispatch that starts while
the free list is non-empty takes its top — the most recently pushed, hence
most recently freed, window (pushes are conses onto the top) — and spawns
nothing (the window counter is untouched); only a dispatch that starts on
an empty free list goes to the spawn path.  Moreover a completion with a
queued invocation hands the just-freed window directly to the next
dispatch. -/
theorem claim_c5_lifo_reuse (s : PoolState) (invId : Nat) :
    (∀ hdl rest, s.freeWindowList = hdl :: rest →
      (startDispatch s invId).freeWindowList = rest ∧
      (startDispatch s invId).active =
        s.active ++ [(invId, SlotState.executing hdl)] ∧
      (startDispatch s invId).nextWindowId = s.nextWindowId) ∧
    (s.freeWindowList = [] →
      (startDispatch s invId).active =
        s.active ++ [(invId, SlotState.awaitingSpawn)]) ∧
    (∀ i hdl o t next rest, slotOf s i = some (SlotState.executing hdl) →
      s.alive = true → s.pending = next :: rest →
      (step s (PoolEvent.execCompleted i o t)).active =
        s.active.filter (fun p => p.1 != i) ++
          [(next, SlotState.executing hdl)]) := by
  refine ⟨?_, ?_, ?_⟩
  · intro hdl rest hfw
    unfold startDispatch
    dsimp only
    rw [hfw]
    exact ⟨rfl, rfl, rfl⟩
  · intro hfw
    unfold startDispatch
    dsimp only
    rw [hfw]
  · intro i hdl o t next rest hSlot halive hp
    rw [execCompleted_dispatch s i hdl o t next rest hSlot halive hp]
    unfold startDispatch
    dsimp only

theorem claim_c5_witness :
    (startDispatch (runPool "mod" 1 [PoolEvent.submit ["__removeme__", "f"] [],
        PoolEvent.spawned 0,
        PoolEvent.execCompleted 0 (ExecOutcome.success (Val.num 1)) 5]) 1).freeWindowList = [] ∧
    (startDispatch (runPool "mod" 1 [PoolEvent.submit ["__removeme__", "f"] [],
        PoolEvent.spawned 0,
        PoolEvent.execCompleted 0 (ExecOutcome.success (Val.num 1)) 5]) 1).nextWindowId = 1 :=
  ⟨((claim_c5_lifo_reuse (runPool "mod" 1 [PoolEvent.submit ["__removeme__", "f"] [],
      PoolEvent.spawned 0,
      PoolEvent.execCompleted 0 (ExecOutcome.success (Val.num 1)) 5]) 1).1
      (rendererRequireDirect 0) [] rfl).1,
   (((claim_c5_lifo_reuse (runPool "mod" 1 [PoolEvent.submit ["__removeme__", "f"] [],
      PoolEvent.spawned 0,
      PoolEvent.execCompleted 0 (ExecOutcome.success (Val.num 1)) 5]) 1).1
      (rendererRequireDirect 0) [] rfl).2.2).trans rfl⟩

/-- C6: the idle reaper (the `guaranteedThrottle(5*1000)` subscription,
with the throttle modelled from the spec since `custom-operators` is not
under `src/`) fires only when a full quiet interval of `5*1000 = 5000` ms
has elapsed after the latest completion with no completion since; any
completion (success or failure) re-arms the debounce with its own
timestamp.  On firing it disposes exactly the windows on the free list, in
pop order, empties the list, and touches nothing else — in particular the
active slots and the futures are unchanged. -/
theorem claim_c6_idle_reaper (s : PoolState) (t0 t : Nat) :
    idleReapIntervalMs = 5000 ∧
    (s.pendingReap = some t0 → t0 + idleReapIntervalMs ≤ t →
      step s (PoolEvent.reapTimer t) =
        { s with freeWindowList := [],
                 disposed := s.disposed ++ reapFreeWindows s.freeWindowList,
                 pendingReap := none }) ∧
    (s.pendingReap = some t0 → ¬ t0 + idleReapIntervalMs ≤ t →
      step s (PoolEvent.reapTimer t) = s) ∧
    (s.pendingReap = none → step s (PoolEvent.reapTimer t) = s) ∧
    (reapFreeWindows s.freeWindowList =
      s.freeWindowList.map RemoteModuleHandle.wndId) ∧
    (∀ i hdl o tc, slotOf s i = some (SlotState.executing hdl) →
      s.alive = true →
      (step s (PoolEvent.execCompleted i o tc)).pendingReap = some tc) := by
  refine ⟨rfl, ?_, ?_, ?_, reapFreeWindows_map _, ?_⟩
  · intro hr hq
    unfold step onReapTimer
    dsimp only
    rw [hr]
    dsimp only
    rw [if_pos hq]
  · intro hr hq
    unfold step onReapTimer
    dsimp only
    rw [hr]
    dsimp only
    rw [if_neg hq]
  · intro hr
    unfold step onReapTimer
    dsimp only
    rw [hr]
  · intro i hdl o tc hslot halive
    cases hp : s.pending with
    | nil => rw [execCompleted_free_nil s i hdl o tc hslot halive hp]
    | cons next rest =>
      rw [execCompleted_dispatch s i hdl o tc next rest hslot halive hp]
      unfold startDispatch
      dsimp only

theorem claim_c6_witness :
    (step (runPool "mod" 1 [PoolEvent.submit ["__removeme__", "f"] [],
        PoolEvent.spawned 0,
        PoolEvent.execCompleted 0 (ExecOutcome.success (Val.num 1)) 100])
      (PoolEvent.reapTimer 5100)).freeWindowList = [] ∧
    (step (runPool "mod" 1 [PoolEvent.submit ["__removeme__", "f"] [],
        PoolEvent.spawned 0,
        PoolEvent.execCompleted 0 (ExecOutcome.success (Val.num 1)) 100])
      (PoolEvent.reapTimer 5100)).disposed = [0] ∧
    (step (runPool "mod" 1 [PoolEvent.submit ["__removeme__", "f"] [],
        PoolEvent.spawned 0,
        PoolEvent.execCompleted 0 (ExecOutcome.success (Val.num 1)) 100])
      (PoolEvent.reapTimer 5100)).active = [] := by
  have h := (claim_c6_idle_reaper (runPool "mod" 1
    [PoolEvent.submit ["__removeme__", "f"] [],
     PoolEvent.spawned 0,
     PoolEvent.execCompleted 0 (ExecOutcome.success (Val.num 1)) 100])
    100 5100).2.1 rfl (by decide)
  rw [h]
  exact ⟨rfl, rfl, rfl⟩

/-- C7 (the code evaluated at the failing input): the per-invocation future
is an `AsyncSubject`, so it settles at most once; but it is not guaranteed
to settle at all.  When the spawn triggered by an invocation fails, the
`multicast` connection that would feed the future was never made, the
merged subscription dies, and the future stays pending forever — no event
sequence whatsoever can settle it, contradicting the claimed
exactly-once settlement. -/
theorem claim_c7_future_can_stay_pending (evs : List PoolEvent) :
    (evs.foldl step (runPool "mod" 1
        [PoolEvent.submit ["__removeme__", "f"] [],
         PoolEvent.spawnFailed 0 "module load error"])).futures.getD 0
      FutureState.pending = FutureState.pending :=
  (dead_foldl evs (runPool "mod" 1
    [PoolEvent.submit ["__removeme__", "f"] [],
     PoolEvent.spawnFailed 0 "module load error"]) 0 rfl rfl rfl).2.2.2

/-- C8: the configuration surface is `maxConcurrency`, a positive integer
default of 4 supplied as a default parameter of `requireTaskPool`, and the
idle-reap quiet interval of `5*1000 = 5000` ms. -/
theorem claim_c8_configuration (modulePath : String) :
    (requireTaskPool modulePath).maxConcurrency = 4 ∧
    0 < (requireTaskPool modulePath).maxConcurrency ∧
    (∀ mc : Nat, (requireTaskPool modulePath mc).maxConcurrency = mc) ∧
    idleReapIntervalMs = 5000 :=
  ⟨rfl, Nat.succ_pos 3, fun _ => rfl, rfl⟩

/-- C9: a proxied call captured with method chain `c` (whose head is the
proxy's own root name, `__removeme__`) and arguments `a` enqueues — and
later sends to the worker — the invocation whose chain is `requiredModule`
followed by `c` with its head removed (`methodChain.splice(1)` then
`['requiredModule'].concat(chain)`), with the arguments `a` unchanged. -/
theorem claim_c9_chain_rewrite (s : PoolState) (hs : Reachable s)
    (mchain : List String) (args : List Val) :
    ((step s (PoolEvent.submit mchain args)).invocations =
      s.invocations ++
        [{ chain := "requiredModule" :: mchain.drop 1, args := args }]) ∧
    (∀ r ∈ s.execRequests,
      r.chain = (s.invocations.getD r.invId { chain := [], args := [] }).chain ∧
      r.args = (s.invocations.getD r.invId { chain := [], args := [] }).args) := by
  constructor
  · unfold step onSubmit
    dsimp only
    split
    · split
      · unfold startDispatch
        dsimp only
        split <;> rfl
      · rfl
    · rfl
  · intro r hr
    exact ((pool_inv s hs).hReq r hr).2

theorem claim_c9_witness :
    (step (runPool "mod" 1 [PoolEvent.submit ["__removeme__", "f"] [Val.num 7],
        PoolEvent.spawned 0])
      (PoolEvent.submit ["__removeme__", "sub", "go"] [Val.num 2])).invocations =
      [{ chain := ["requiredModule", "f"], args := [Val.num 7] },
       { chain := ["requiredModule", "sub", "go"], args := [Val.num 2] }] := by
  have h := claim_c9_chain_rewrite
    (runPool "mod" 1 [PoolEvent.submit ["__removeme__", "f"] [Val.num 7],
      PoolEvent.spawned 0])
    (reachable_runPool _ _ _) ["__removeme__", "sub", "go"] [Val.num 2]
  rw [h.1]
  rfl

/-- C10: every remote execution issued by the dispatcher is the
`executeJavaScriptMethodObservable` closure of `rendererRequireDirect`,
which binds the fixed `240*1000 = 240000` ms timeout (line 53); and when
the transport reports a timeout error for a dispatched invocation, the
pipeline rejects that invocation's future with it (the timeout bound
itself is enforced inside `execute-js-func`, outside the scheduler). -/
theorem claim_c10_timeout (s : PoolState) (hs : Reachable s) :
    (∀ r ∈ s.execRequests, r.timeoutMs = 240 * 1000) ∧
    (∀ i hdl t, slotOf s i = some (SlotState.executing hdl) →
      (step s (PoolEvent.execCompleted i
          (ExecOutcome.failure Err.timeout) t)).futures =
        s.futures.set i (FutureState.rejected Err.timeout)) := by
  refine ⟨(pool_inv s hs).hTimeout, ?_⟩
  intro i hdl t hslot
  exact execCompleted_futures s i hdl _ t hslot

theorem claim_c10_witness :
    (∀ r ∈ (runPool "mod" 1 [PoolEvent.submit ["__removeme__", "f"] [],
        PoolEvent.spawned 0]).execRequests, r.timeoutMs = 240 * 1000) ∧
    (step (runPool "mod" 1 [PoolEvent.submit ["__removeme__", "f"] [],
        PoolEvent.spawned 0])
      (PoolEvent.execCompleted 0 (ExecOutcome.failure Err.timeout) 9)).futures =
      [FutureState.rejected Err.timeout] := by
  have h := claim_c10_timeout (runPool "mod" 1
    [PoolEvent.submit ["__removeme__", "f"] [], PoolEvent.spawned 0])
    (reachable_runPool _ _ _)
  refine ⟨h.1, ?_⟩
  rw [h.2 0 (rendererRequireDirect 0) 9 rfl]
  rfl

end RendererRequire
